import Mathlib

/-!
Shallow embedding of the dictionary storage backend of easydict_gtk
(`easydict_gtk/backends/sqlite_backend.py`, class `SQLiteBackend`).

The sqlite engine is modelled at the logical level: a database is a list of
named tables, each a list of rows in insertion order; a serialized database
image is a function of that logical state.  LZMA compression is modelled as a
constructor wrapping the compressed payload (`lzma.decompress` inverts
`lzma.compress`).  Fallible operations return `Except Err`.
-/

/-- ASCII lower-casing: the case folding performed both by SQLite's default
`LIKE` operator and by `re.IGNORECASE` on ASCII text. -/
def asciiLower (c : Char) : Char :=
  if 'A' ≤ c ∧ c ≤ 'Z' then Char.ofNat (c.toNat + 32) else c

/-- ASCII word character, modelling the regex character class used by the
word-boundary assertion for ASCII text. -/
def isWordChar (c : Char) : Bool :=
  decide ('a' ≤ c ∧ c ≤ 'z') || decide ('A' ≤ c ∧ c ≤ 'Z') ||
    decide ('0' ≤ c ∧ c ≤ '9') || c == '_'

/-- Entry: one row of the word-pair table, five textual fields
(`eng TEXT, cze TEXT, notes TEXT, special TEXT, author TEXT`). -/
structure Entry where
  eng : String
  cze : String
  notes : String
  special : String
  author : String
deriving DecidableEq, Repr

/-- Modelled from the spec: the `Result` record of
`easydict_gtk/backends/backend.py`, a file not present in the sources; per the
spec it is the read-model projection with the same five text fields as `Entry`,
constructed positionally from a returned row. -/
structure Result where
  eng : String
  cze : String
  notes : String
  special : String
  author : String
deriving DecidableEq, Repr

/-- Construction of a `Result` from a row, positionally (`Result(*row)`). -/
def Result.ofEntry (e : Entry) : Result :=
  { eng := e.eng, cze := e.cze, notes := e.notes,
    special := e.special, author := e.author }

/-- Logical state of an in-memory sqlite database: tables by name, in creation
order; the rows of a table are kept in insertion order (which is the order
`SELECT *` returns for these append-only tables).  A freshly connected
`:memory:` database is schema-less: the empty list. -/
abbrev DB := List (String × List Entry)

/-- Existence of a table (sqlite's `if not exists` check / `no such table`). -/
def DB.hasTable (db : DB) (t : String) : Bool :=
  db.any (fun tr => tr.1 == t)

/-- Rows of table `t`, in order; `none` when the table does not exist. -/
def DB.getRows (db : DB) (t : String) : Option (List Entry) :=
  (db.find? (fun tr => tr.1 == t)).map (fun tr => tr.2)

/-- Effect of `CREATE TABLE if not exists t (...)`. -/
def DB.createTableIfNotExists (db : DB) (t : String) : DB :=
  if db.hasTable t then db else db ++ [(t, [])]

/-- Effect of `executemany("INSERT INTO t VALUES (?,?,?,?,?)", data)`: the rows
are appended to `t` in order; `none` models the `no such table` error raised
when the statement is prepared. -/
def DB.insertRows (db : DB) (t : String) (data : List Entry) : Option DB :=
  if db.hasTable t then
    some (db.map (fun tr => if tr.1 == t then (tr.1, tr.2 ++ data) else tr))
  else
    none

/-- Errors surfaced by the backend (Python exception classes, with the message
where a claim depends on it). -/
inductive Err where
  | fileNotFound
  | indexError
  | noSuchTable
  | noSuchColumn (lang : String)
  | valueError (msg : String)
  | lzmaFormat
  | notADatabase
deriving DecidableEq, Repr

/-- Byte content of a file, at the granularity the backend distinguishes:
zero bytes, a serialized sqlite database image (a deterministic, injective
function of the logical database state; never zero bytes), or the LZMA
compression of some content (never zero bytes). -/
inductive Bytes where
  | empty
  | image (db : DB)
  | lzma (b : Bytes)
deriving DecidableEq, Repr

/-- Truthiness of a Python bytes object: `if self.file_db_bytes:`. -/
def Bytes.isNonEmpty : Bytes → Bool
  | .empty => false
  | .image _ => true
  | .lzma _ => true

/-- Model of `lzma.decompress`: inverts `lzma.compress`, raises `LZMAError` on
content that is not an LZMA stream. -/
def lzmaDecompress : Bytes → Except Err Bytes
  | .lzma b => .ok b
  | _ => .error .lzmaFormat

/-- Model of `sqlite3.Connection.deserialize` on a byte buffer: a genuine
database image restores its logical state; other content is not a database. -/
def deserialize : Bytes → Except Err DB
  | .image db => .ok db
  | _ => .error .notADatabase

/-- Configuration of a `SQLiteBackend` instance as set up by `__init__`. -/
structure Store where
  table_name : String
  memory_only : Bool
  lzma_compressed : Bool
deriving DecidableEq, Repr

/-- Filesystem accesses a constructor or operation can perform. -/
inductive IOEvent where
  | existsCheck
  | readBytes
  | writeFile
deriving DecidableEq, Repr

/-- Outcome of `SQLiteBackend.__init__`. -/
inductive InitOutcome where
  | ok (s : Store)
  | mimeTypeMismatch (msg : String)
  | exitFileNotFound
deriving DecidableEq, Repr

/-- Message of the `MimeTypeMismatch` raised by `__init__`. -/
def mimeMsg : String :=
  "SQLiteBackend can take only SQLite *.db files or *.lzma files, which are LZMA compressed db files."

/-- Model of `SQLiteBackend.__init__`: stores the flags, then checks that the
backing file exists (printing and exiting the process when it does not), then
validates the suffix pattern, then derives the compression flag.  The returned
trace lists the filesystem accesses performed, in order: the existence check
always runs, and it runs before the suffix validation; no byte of the file is
read. -/
def store_init (fileExists : Bool) (suffixes : List String)
    (table_name : String) (memory_only : Bool) : List IOEvent × InitOutcome :=
  ([IOEvent.existsCheck],
    if fileExists = false then
      .exitFileNotFound
    else if suffixes ≠ [".db", ".lzma"] ∧ suffixes ≠ [".db"] then
      .mimeTypeMismatch mimeMsg
    else
      .ok { table_name := table_name, memory_only := memory_only,
            lzma_compressed := suffixes == [".db", ".lzma"] })

/-- Model of `SQLiteBackend.db_init`: read the backing file's bytes, decompress
them when the store is flagged compressed, and, when the (decompressed) buffer
is non-empty, load it into the fresh in-memory database via deserialize; an
empty buffer leaves the fresh connection schema-less. -/
def db_init (s : Store) (file : Bytes) : Except Err DB :=
  match (if s.lzma_compressed then lzmaDecompress file else .ok file) with
  | .error e => .error e
  | .ok bytes => if bytes.isNonEmpty then deserialize bytes else .ok []

/-- Model of `SQLiteBackend.write_to_file`: the backing file is overwritten
with the current logical state — compressed path: backup into a temporary
in-memory database, serialize, `lzma.compress`, write; uncompressed path:
backup into a connection opened on the backing file.  Either way the previous
file content is discarded (opening a pre-existing file whose bytes are not a
database image would error inside sqlite on the uncompressed path; that path is
not reachable from the operations modelled here). -/
def write_to_file (s : Store) (db : DB) : Bytes :=
  if s.lzma_compressed then .lzma (.image db) else .image db

/-- Model of `SQLiteBackend.prepare_db`: `CREATE TABLE if not exists`, commit,
and, when not memory-only, flush to the backing file.  Returns the new
in-memory state and the new backing-file content. -/
def prepare_db (s : Store) (db : DB) (file : Bytes) : DB × Bytes :=
  let db2 := db.createTableIfNotExists s.table_name
  (db2, if s.memory_only then file else write_to_file s db2)

/-- Python `str.split` on a single-character separator. -/
def splitOnChar (sep : Char) : List Char → List (List Char)
  | [] => [[]]
  | c :: cs =>
    if c = sep then
      [] :: splitOnChar sep cs
    else
      match splitOnChar sep cs with
      | [] => [[c]]
      | h :: t => (c :: h) :: t

/-- Python `str.replace` of every newline with the empty string. -/
def stripNewlines (l : List Char) : List Char :=
  l.filter (fun c => c != '\n')

/-- Parsing of one line of the raw tab-separated file, as the body of the loop
in `fill_db` does it: split on tabs, access fields 0 to 4 (an `IndexError`,
modelled as `none`, when a line has fewer than five fields), and strip newlines
from the final field. -/
def parseLine (line : List Char) : Option Entry :=
  let fs := splitOnChar '\t' line
  match fs[0]?, fs[1]?, fs[2]?, fs[3]?, fs[4]? with
  | some f0, some f1, some f2, some f3, some f4 =>
    some { eng := String.mk f0, cze := String.mk f1, notes := String.mk f2,
           special := String.mk f3, author := String.mk (stripNewlines f4) }
  | _, _, _, _, _ => none

/-- Iteration of a Python text file: each yielded line keeps its trailing
newline; a final line without a terminator is yielded as-is; an empty file
yields nothing. -/
def pyLinesAux (acc : List Char) : List Char → List (List Char)
  | [] => if acc.isEmpty then [] else [acc.reverse]
  | c :: cs =>
    if c = '\n' then
      (acc.reverse ++ ['\n']) :: pyLinesAux [] cs
    else
      pyLinesAux (c :: acc) cs

/-- Lines of the raw file's content, as `for line in file` yields them. -/
def pyLines (content : String) : List (List Char) :=
  pyLinesAux [] content.data

/-- Accumulation of the `data` list in `fill_db`: every line is parsed before
any row is inserted, and the first malformed line aborts the whole loop. -/
def parseAll : List (List Char) → Option (List Entry)
  | [] => some []
  | l :: ls =>
    match parseLine l, parseAll ls with
    | some e, some es => some (e :: es)
    | _, _ => none

/-- Parsed content of the raw tab-separated file. -/
def parseData (content : String) : Option (List Entry) :=
  parseAll (pyLines content)

/-- Model of `SQLiteBackend.fill_db`: check that the raw file exists
(`raw_file = none` models a missing file), parse every line into `data`,
bulk-insert `data` into the table, commit, and, when not memory-only, flush to
the backing file. -/
def fill_db (s : Store) (db : DB) (file : Bytes) (raw_file : Option String) :
    Except Err (DB × Bytes) :=
  match raw_file with
  | none => .error .fileNotFound
  | some content =>
    match parseData content with
    | none => .error .indexError
    | some data =>
      match db.insertRows s.table_name data with
      | none => .error .noSuchTable
      | some db2 =>
        .ok (db2, if s.memory_only then file else write_to_file s db2)

/-- SQLite `LIKE` pattern matching over the whole candidate string: `%` matches
any (possibly empty) sequence, `_` matches exactly one character, and ordinary
characters compare after ASCII case folding (SQLite's default, ICU-less
behaviour). -/
def likeM : List Char → List Char → Bool
  | [], s => s.isEmpty
  | p :: ps, s =>
    if p = '%' then
      s.tails.any (fun t => likeM ps t)
    else
      match s with
      | [] => false
      | c :: cs =>
        (if p = '_' then true else asciiLower p == asciiLower c) && likeM ps cs

/-- String-level wrapper for `LIKE`. -/
def likeMatch (pattern item : String) : Bool :=
  likeM pattern.data item.data

/-- Columns of the table: the values `lang` may take so that
`SELECT * FROM t WHERE {lang} ...` does not fail with `no such column`. -/
def validLang (lang : String) : Bool :=
  lang == "eng" || lang == "cze" || lang == "notes" ||
    lang == "special" || lang == "author"

/-- Value of the column named `lang` in a row (meaningful when
`validLang lang`). -/
def langCol (lang : String) (e : Entry) : String :=
  if lang == "eng" then e.eng
  else if lang == "cze" then e.cze
  else if lang == "notes" then e.notes
  else if lang == "special" then e.special
  else e.author

/-- Model of `SQLiteBackend.regexp` (the predicate registered as `REGEXP`:
`re.compile(expr, re.IGNORECASE).search(item) is not None`) applied to the
pattern built by the whole-word search branch from the search term `word`.
Modelled for terms made of ASCII word characters, for which the pattern is the
term itself between two word-boundary assertions: the search succeeds exactly
when the term occurs, ASCII-case-insensitively, at some position of `item`
whose neighbouring characters (when present) are not word characters. -/
def regexp_word_boundary (word item : String) : Bool :=
  (List.range (item.data.length + 1)).any fun i =>
    decide (((item.data.drop i).take word.data.length).map asciiLower
        = word.data.map asciiLower)
      && (decide (i = 0) || !((item.data[i - 1]?).any isWordChar))
      && !((item.data[i + word.data.length]?).any isWordChar)

/-- Execution of `SELECT * FROM t WHERE {lang} <op> ?` with row predicate `p`:
`no such table` when `t` is absent, `no such column` when `lang` is not a
column, otherwise the matching rows, in table order, projected to `Result`. -/
def runSelect (db : DB) (t lang : String) (p : String → Bool) :
    Except Err (List Result) :=
  match db.getRows t with
  | none => .error .noSuchTable
  | some rows =>
    if validLang lang then
      .ok ((rows.filter (fun e => p (langCol lang e))).map Result.ofEntry)
    else
      .error (.noSuchColumn lang)

/-- Model of `SQLiteBackend.search_in_db`: the search type is dispatched before
any query is issued; `fulltext` wraps the word in `%` wildcards, `whole_word`
delegates to the registered regex predicate with a word-boundary pattern,
`first_chars` puts the wildcard only on the right, and any other search type
raises `ValueError("Unknown search_type argument.")`. -/
def search_in_db (s : Store) (db : DB) (word lang search_type : String) :
    Except Err (List Result) :=
  if search_type == "fulltext" then
    runSelect db s.table_name lang (fun col => likeMatch ("%" ++ word ++ "%") col)
  else if search_type == "whole_word" then
    runSelect db s.table_name lang (fun col => regexp_word_boundary word col)
  else if search_type == "first_chars" then
    runSelect db s.table_name lang (fun col => likeMatch (word ++ "%") col)
  else
    .error (.valueError "Unknown search_type argument.")

/-- Specification-level reading of the whole-word search: the column splits as
`pre ++ mid ++ suf` where `mid` equals the search term up to ASCII case and the
characters adjacent to `mid` (when they exist) are not word characters. -/
def WholeWordMatch (word item : String) : Prop :=
  ∃ pre mid suf : List Char,
    item.data = pre ++ mid ++ suf ∧
    mid.map asciiLower = word.data.map asciiLower ∧
    (∀ c, pre.getLast? = some c → isWordChar c = false) ∧
    (∀ c, suf.head? = some c → isWordChar c = false)

/-! ### Helper lemmas -/

theorem ofEntry_inj {a b : Entry} : Result.ofEntry a = Result.ofEntry b ↔ a = b := by
  constructor
  · intro h
    cases a
    cases b
    simpa [Result.ofEntry] using h
  · intro h
    rw [h]

theorem mem_search_filter (p : Entry → Bool) (rows : List Entry) (e : Entry)
    (he : e ∈ rows) :
    Result.ofEntry e ∈ (rows.filter p).map Result.ofEntry ↔ p e = true := by
  rw [List.mem_map]
  constructor
  · rintro ⟨a, ha, heq⟩
    rw [List.mem_filter] at ha
    have : a = e := ofEntry_inj.mp heq
    exact this ▸ ha.2
  · intro hp
    exact ⟨e, List.mem_filter.mpr ⟨he, hp⟩, rfl⟩

theorem runSelect_ok {db : DB} {t lang : String} {p : String → Bool}
    {rows : List Entry} {res : List Result}
    (hrows : db.getRows t = some rows) (h : runSelect db t lang p = .ok res) :
    res = (rows.filter (fun e => p (langCol lang e))).map Result.ofEntry := by
  simp only [runSelect, hrows] at h
  split at h
  · exact (Except.ok.inj h).symm
  · exact Except.noConfusion h

theorem search_eq_fulltext (s : Store) (db : DB) (word lang : String) :
    search_in_db s db word lang "fulltext"
      = runSelect db s.table_name lang
          (fun col => likeMatch ("%" ++ word ++ "%") col) := rfl

theorem search_eq_whole_word (s : Store) (db : DB) (word lang : String) :
    search_in_db s db word lang "whole_word"
      = runSelect db s.table_name lang
          (fun col => regexp_word_boundary word col) := rfl

theorem search_eq_first_chars (s : Store) (db : DB) (word lang : String) :
    search_in_db s db word lang "first_chars"
      = runSelect db s.table_name lang
          (fun col => likeMatch (word ++ "%") col) := rfl

theorem fill_db_ok_elim {s : Store} {db db2 : DB} {f f2 : Bytes} {content : String}
    (h : fill_db s db f (some content) = .ok (db2, f2)) :
    ∃ data, parseData content = some data ∧
      db.insertRows s.table_name data = some db2 ∧
      f2 = (if s.memory_only then f else write_to_file s db2) := by
  cases hp : parseData content with
  | none =>
    simp only [fill_db, hp] at h
    exact Except.noConfusion h
  | some data =>
    cases hi : db.insertRows s.table_name data with
    | none =>
      simp only [fill_db, hp, hi] at h
      exact Except.noConfusion h
    | some dbx =>
      simp only [fill_db, hp, hi, Except.ok.injEq, Prod.mk.injEq] at h
      obtain ⟨h1, h2⟩ := h
      subst h1
      exact ⟨data, rfl, hi, h2.symm⟩

theorem fill_db_ok_intro {s : Store} {db db2 : DB} {data : List Entry}
    {content : String} (f : Bytes) (hp : parseData content = some data)
    (hi : db.insertRows s.table_name data = some db2) :
    fill_db s db f (some content)
      = .ok (db2, if s.memory_only then f else write_to_file s db2) := by
  simp only [fill_db, hp, hi]

theorem fill_db_parse_error {s : Store} {db : DB} {f : Bytes} {content : String}
    (hp : parseData content = none) :
    fill_db s db f (some content) = .error .indexError := by
  simp only [fill_db, hp]

theorem hasTable_create (db : DB) (t : String) :
    (db.createTableIfNotExists t).hasTable t = true := by
  unfold DB.createTableIfNotExists
  split
  · assumption
  · unfold DB.hasTable
    rw [List.any_append]
    simp [List.any]

theorem create_of_hasTable {db : DB} {t : String} (h : db.hasTable t = true) :
    db.createTableIfNotExists t = db := by
  unfold DB.createTableIfNotExists
  rw [h]
  rfl

theorem likeM_pct (ps s : List Char) :
    likeM ('%' :: ps) s = true ↔ ∃ u, u <:+ s ∧ likeM ps u = true := by
  have hstep : likeM ('%' :: ps) s = s.tails.any (fun t => likeM ps t) := by
    simp [likeM]
  rw [hstep, List.any_eq_true]
  constructor
  · rintro ⟨u, hu, hm⟩
    exact ⟨u, (List.mem_tails u s).mp hu, hm⟩
  · rintro ⟨u, hu, hm⟩
    exact ⟨u, (List.mem_tails u s).mpr hu, hm⟩

theorem likeM_pct_one (s : List Char) : likeM ['%'] s = true :=
  (likeM_pct [] s).mpr ⟨[], List.nil_suffix, rfl⟩

theorem likeM_lit_append (w ps t : List Char) (hp : '%' ∉ w) (hu : '_' ∉ w) :
    likeM (w ++ ps) t = true ↔
      ∃ a b, t = a ++ b ∧ a.map asciiLower = w.map asciiLower ∧
        likeM ps b = true := by
  revert hp hu
  induction w generalizing t with
  | nil =>
    intro hp hu
    simp only [List.nil_append, List.map_nil]
    constructor
    · intro h
      exact ⟨[], t, rfl, rfl, h⟩
    · rintro ⟨a, b, ht, ha, hb⟩
      have ha0 : a = [] := by
        have := congrArg List.length ha
        simpa using this
      subst ha0
      simpa [ht] using hb
  | cons x w ih =>
    intro hp hu
    have hx1 : x ≠ '%' := fun hh => hp (hh ▸ List.mem_cons_self x w)
    have hx2 : x ≠ '_' := fun hh => hu (hh ▸ List.mem_cons_self x w)
    have hp2 : '%' ∉ w := fun hh => hp (List.mem_cons_of_mem x hh)
    have hu2 : '_' ∉ w := fun hh => hu (List.mem_cons_of_mem x hh)
    cases t with
    | nil =>
      constructor
      · intro h
        exfalso
        simp [likeM, hx1] at h
      · rintro ⟨a, b, ht, ha, hb⟩
        exfalso
        obtain ⟨ha0, hb0⟩ := List.append_eq_nil.mp ht.symm
        subst ha0
        simp at ha
    | cons c cs =>
      have hstep : likeM ((x :: w) ++ ps) (c :: cs)
          = ((asciiLower x == asciiLower c) && likeM (w ++ ps) cs) := by
        simp [likeM, hx1, hx2]
      rw [hstep, Bool.and_eq_true, beq_iff_eq, ih cs hp2 hu2]
      constructor
      · rintro ⟨hxc, a, b, hcs, ha, hb⟩
        refine ⟨c :: a, b, by rw [List.cons_append, hcs], ?_, hb⟩
        simp [ha, hxc]
      · rintro ⟨a, b, hab, ha, hb⟩
        cases a with
        | nil => simp at ha
        | cons a0 a2 =>
          rw [List.cons_append] at hab
          injection hab with h1 h2
          subst h1
          simp only [List.map_cons, List.cons.injEq] at ha
          obtain ⟨hxc, ha2⟩ := ha
          exact ⟨hxc.symm, a2, b, h2, ha2, hb⟩

theorem likeM_contains_iff (w t : List Char) (hp : '%' ∉ w) (hu : '_' ∉ w) :
    likeM ('%' :: (w ++ ['%'])) t = true ↔
      w.map asciiLower <:+: t.map asciiLower := by
  rw [likeM_pct]
  constructor
  · rintro ⟨u, ⟨v, hv⟩, hm⟩
    rw [likeM_lit_append w ['%'] u hp hu] at hm
    obtain ⟨a, b, hu2, ha, _⟩ := hm
    refine ⟨v.map asciiLower, b.map asciiLower, ?_⟩
    rw [← hv, hu2]
    simp [ha]
  · rintro ⟨p, q, hpq⟩
    refine ⟨t.drop p.length, List.drop_suffix _ _, ?_⟩
    rw [likeM_lit_append w ['%'] _ hp hu]
    refine ⟨(t.drop p.length).take w.length, (t.drop p.length).drop w.length,
      (List.take_append_drop _ _).symm, ?_, likeM_pct_one _⟩
    have hdrop : (t.map asciiLower).drop p.length = w.map asciiLower ++ q := by
      rw [← hpq, List.append_assoc]
      exact List.drop_left _ _
    calc ((t.drop p.length).take w.length).map asciiLower
        = ((t.drop p.length).map asciiLower).take w.length := by rw [List.map_take]
      _ = ((t.map asciiLower).drop p.length).take w.length := by rw [List.map_drop]
      _ = (w.map asciiLower ++ q).take w.length := by rw [hdrop]
      _ = (w.map asciiLower ++ q).take (w.map asciiLower).length := by
            rw [List.length_map]
      _ = w.map asciiLower := List.take_left _ _

theorem getLast?_take_eq (s : List Char) (i : Nat) (h1 : 0 < i)
    (h2 : i ≤ s.length) : (s.take i).getLast? = s[i - 1]? := by
  rw [List.getLast?_eq_getElem?]
  have hlen : (s.take i).length = i := by
    rw [List.length_take]
    omega
  rw [hlen]
  exact List.getElem?_take_of_lt (by omega)

theorem regexp_word_boundary_iff (word item : String) :
    regexp_word_boundary word item = true ↔ WholeWordMatch word item := by
  unfold regexp_word_boundary WholeWordMatch
  rw [List.any_eq_true]
  constructor
  · rintro ⟨i, hi, hcond⟩
    rw [List.mem_range] at hi
    have hi2 : i ≤ item.data.length := by omega
    rw [Bool.and_eq_true, Bool.and_eq_true] at hcond
    obtain ⟨⟨hA, hB⟩, hC⟩ := hcond
    rw [decide_eq_true_eq] at hA
    refine ⟨item.data.take i, (item.data.drop i).take word.data.length,
      (item.data.drop i).drop word.data.length, ?_, hA, ?_, ?_⟩
    · rw [List.append_assoc, List.take_append_drop, List.take_append_drop]
    · intro c hc
      rcases Nat.eq_zero_or_pos i with h0 | h0
      · subst h0
        simp at hc
      · rw [getLast?_take_eq item.data i h0 hi2] at hc
        rw [Bool.or_eq_true] at hB
        rcases hB with hB | hB
        · rw [decide_eq_true_eq] at hB
          omega
        · rw [Bool.not_eq_true'] at hB
          rw [hc] at hB
          simpa [Option.any] using hB
    · intro c hc
      rw [List.drop_drop, List.head?_drop] at hc
      rw [Bool.not_eq_true'] at hC
      rw [hc] at hC
      simpa [Option.any] using hC
  · rintro ⟨pre, mid, suf, hsplit, hmid, hpre, hsuf⟩
    have hmlen : mid.length = word.data.length := by
      have := congrArg List.length hmid
      simpa using this
    have hlen : pre.length ≤ item.data.length := by
      rw [hsplit, List.length_append, List.length_append]
      omega
    refine ⟨pre.length, ?_, ?_⟩
    · rw [List.mem_range]
      omega
    · have hdrop : item.data.drop pre.length = mid ++ suf := by
        rw [hsplit, List.append_assoc]
        exact List.drop_left _ _
      have htake : (item.data.drop pre.length).take word.data.length = mid := by
        rw [hdrop, ← hmlen]
        exact List.take_left _ _
      rw [Bool.and_eq_true, Bool.and_eq_true]
      refine ⟨⟨?_, ?_⟩, ?_⟩
      · rw [decide_eq_true_eq, htake, hmid]
      · cases pre with
        | nil => simp
        | cons p0 p2 =>
          rw [Bool.or_eq_true]
          right
          rw [Bool.not_eq_true']
          have hne2 : p0 :: p2 ≠ ([] : List Char) := by simp
          obtain ⟨c, hcl⟩ :=
            Option.isSome_iff_exists.mp (List.getLast?_isSome.mpr hne2)
          have hplen : 0 < (p0 :: p2).length := by simp
          have hidx : item.data[(p0 :: p2).length - 1]? = some c := by
            rw [hsplit]
            rw [List.getElem?_append_left (by rw [List.length_append]; omega)]
            rw [List.getElem?_append_left (by omega)]
            rw [← List.getLast?_eq_getElem?]
            exact hcl
          rw [hidx]
          simp [Option.any, hpre c hcl]
      · rw [Bool.not_eq_true']
        have hidx : item.data[pre.length + word.data.length]? = suf[0]? := by
          rw [hsplit]
          rw [List.getElem?_append_right (by rw [List.length_append]; omega)]
          congr 1
          rw [List.length_append]
          omega
        rw [hidx]
        cases suf with
        | nil => rfl
        | cons c cs => simp [Option.any, hsuf c rfl]

theorem parseLine_eq_none_of_short {l : List Char}
    (h : (splitOnChar '\t' l).length < 5) : parseLine l = none := by
  have h4 : (splitOnChar '\t' l)[4]? = none := List.getElem?_eq_none (by omega)
  cases h0 : (splitOnChar '\t' l)[0]? <;>
    cases h1 : (splitOnChar '\t' l)[1]? <;>
      cases h2 : (splitOnChar '\t' l)[2]? <;>
        cases h3 : (splitOnChar '\t' l)[3]? <;>
          simp only [parseLine, h0, h1, h2, h3, h4]

theorem parseAll_eq_none_of_mem {ls : List (List Char)} {l : List Char}
    (hl : l ∈ ls) (h : parseLine l = none) : parseAll ls = none := by
  induction ls with
  | nil => cases hl
  | cons a ls ih =>
    rcases List.mem_cons.mp hl with h1 | h1
    · subst h1
      simp only [parseAll, h]
    · simp only [parseAll, ih h1]
      cases parseLine a <;> rfl

/-! ### Claims -/

/-- C5: for every store state, calling `prepare_db` twice never errors (the
model of `prepare_db` is total) and never duplicates the table: the second call
returns exactly the state produced by the first; the table is created only if
it does not already exist, and the second call leaves the set of tables
unchanged. -/
theorem C5_prepare_idempotent (s : Store) (db : DB) (f : Bytes) :
    prepare_db s (prepare_db s db f).1 (prepare_db s db f).2 = prepare_db s db f ∧
    ((prepare_db s db f).1).hasTable s.table_name = true ∧
    (db.hasTable s.table_name = true → (prepare_db s db f).1 = db) ∧
    (db.hasTable s.table_name = false →
      (prepare_db s db f).1 = db ++ [(s.table_name, [])]) := by
  refine ⟨?_, ?_, ?_, ?_⟩
  · simp only [prepare_db, create_of_hasTable (hasTable_create db s.table_name)]
    cases hm : s.memory_only <;> simp [hm]
  · simp only [prepare_db]
    exact hasTable_create db s.table_name
  · intro h
    simp only [prepare_db]
    exact create_of_hasTable h
  · intro h
    simp [prepare_db, DB.createTableIfNotExists, h]

/-- Witness for C5 at a concrete input: a store without the table; `prepare_db`
creates it and a second call changes nothing. -/
theorem C5_prepare_idempotent_witness :
    (DB.hasTable ([] : DB) "eng_cze" = false) ∧
    (prepare_db (⟨"eng_cze", true, false⟩ : Store) [] Bytes.empty).1 = [("eng_cze", [])] ∧
    prepare_db (⟨"eng_cze", true, false⟩ : Store)
      (prepare_db (⟨"eng_cze", true, false⟩ : Store) [] Bytes.empty).1
      (prepare_db (⟨"eng_cze", true, false⟩ : Store) [] Bytes.empty).2
      = prepare_db (⟨"eng_cze", true, false⟩ : Store) [] Bytes.empty :=
  ⟨rfl,
   (C5_prepare_idempotent (⟨"eng_cze", true, false⟩ : Store) [] Bytes.empty).2.2.2 rfl,
   (C5_prepare_idempotent (⟨"eng_cze", true, false⟩ : Store) [] Bytes.empty).1⟩

/-- C6 counterexample: the `ValueError` raised for an unknown search type
carries the fixed message "Unknown search_type argument.", which does not name
the bad mode value (here "bogus" is not a substring of the message), refuting
the claim that the invalid-argument condition names the bad mode. -/
theorem C6_unknown_mode_counterexample :
    search_in_db (⟨"eng_cze", true, false⟩ : Store) [("eng_cze", [])] "w" "eng" "bogus"
      = .error (.valueError "Unknown search_type argument.") ∧
    ¬ ("bogus".data <:+: "Unknown search_type argument.".data) :=
  ⟨rfl, by decide⟩

/-- C6 amended: for every word and lang, calling `search_in_db` with a search
type other than "fulltext", "whole_word" or "first_chars" fails immediately
with `ValueError("Unknown search_type argument.")` — identifying the offending
argument, not echoing the bad value — independently of the database state
(hence before any query is issued), and yields zero Results. -/
theorem C6_unknown_mode_amended (s : Store) (db : DB) (word lang mode : String)
    (h1 : mode ≠ "fulltext") (h2 : mode ≠ "whole_word")
    (h3 : mode ≠ "first_chars") :
    search_in_db s db word lang mode
      = .error (.valueError "Unknown search_type argument.") := by
  unfold search_in_db
  rw [if_neg (by simp [h1]), if_neg (by simp [h2]), if_neg (by simp [h3])]

/-- Witness for C6 at a concrete input. -/
theorem C6_unknown_mode_witness :
    ("bogus" ≠ "fulltext") ∧ ("bogus" ≠ "whole_word") ∧
    ("bogus" ≠ "first_chars") ∧
    search_in_db (⟨"eng_cze", true, false⟩ : Store) [] "w" "eng" "bogus"
      = .error (.valueError "Unknown search_type argument.") :=
  ⟨by decide, by decide, by decide,
   C6_unknown_mode_amended _ _ _ _ _ (by decide) (by decide) (by decide)⟩

/-- C7 counterexample: the constructor performs the existence check (a
filesystem access) before the suffix validation — on a bad-suffix path the
trace contains the existence check even though the mime error is raised — and
for a missing bad-suffix path the process exits with the file-not-found report
instead of raising the configuration error.  This refutes the claim that the
configuration error is raised before any I/O, including the existence check. -/
theorem C7_suffix_validation_counterexample :
    store_init true [".txt"] "eng_cze" true
      = ([IOEvent.existsCheck], InitOutcome.mimeTypeMismatch mimeMsg) ∧
    IOEvent.existsCheck ∈ (store_init true [".txt"] "eng_cze" true).1 ∧
    store_init false [".txt"] "eng_cze" true
      = ([IOEvent.existsCheck], InitOutcome.exitFileNotFound) :=
  ⟨by decide, by decide, by decide⟩

/-- C7 amended: for every path whose suffix pattern is neither a bare `.db`
file nor a `.db.lzma` double suffix, construction raises the descriptive
`MimeTypeMismatch` configuration error when the file exists (and exits with
the file-not-found report when it does not); the error comes after the
existence check but before any byte of the file is read. -/
theorem C7_suffix_validation_amended (fe : Bool) (sfx : List String)
    (tn : String) (mo : Bool)
    (h1 : sfx ≠ [".db", ".lzma"]) (h2 : sfx ≠ [".db"]) :
    store_init fe sfx tn mo
      = ([IOEvent.existsCheck],
          if fe then InitOutcome.mimeTypeMismatch mimeMsg
          else InitOutcome.exitFileNotFound) ∧
    IOEvent.readBytes ∉ (store_init fe sfx tn mo).1 := by
  constructor
  · unfold store_init
    cases fe
    · simp
    · simp [h1, h2]
  · unfold store_init
    simp

/-- Witness for C7 at a concrete input. -/
theorem C7_suffix_validation_witness :
    ([".txt"] ≠ [".db", ".lzma"]) ∧ ([".txt"] ≠ [".db"]) ∧
    (store_init true [".txt"] "eng_cze" false
        = ([IOEvent.existsCheck], InitOutcome.mimeTypeMismatch mimeMsg) ∧
      IOEvent.readBytes ∉ (store_init true [".txt"] "eng_cze" false).1) := by
  refine ⟨by decide, by decide, ?_⟩
  have h := C7_suffix_validation_amended true [".txt"] "eng_cze" false
    (by decide) (by decide)
  simpa using h

/-- C8 counterexample: a store initialized from an empty backing file (the
test fixture) is schema-less; searching it before any `prepare_db`/`fill_db`
raises the `no such table` error rather than yielding an empty sequence,
refuting the claim for stores whose backing file does not contain the table. -/
theorem C8_empty_search_counterexample :
    db_init (⟨"eng_cze", true, false⟩ : Store) Bytes.empty = .ok [] ∧
    search_in_db (⟨"eng_cze", true, false⟩ : Store) [] "x" "eng" "fulltext"
      = .error .noSuchTable :=
  ⟨rfl, rfl⟩

/-- C8 amended: provided the table exists (created by `prepare_db` or already
present in the backing file) and the language column is valid, searching the
empty table with any valid mode, before any `fill_db`, yields the empty
sequence of Results rather than an error. -/
theorem C8_empty_search_amended (s : Store) (db : DB) (word lang mode : String)
    (hmode : mode = "fulltext" ∨ mode = "whole_word" ∨ mode = "first_chars")
    (hlang : validLang lang = true)
    (hempty : db.getRows s.table_name = some []) :
    search_in_db s db word lang mode = .ok [] := by
  have hrun : ∀ p : String → Bool, runSelect db s.table_name lang p = .ok [] := by
    intro p
    simp [runSelect, hempty, hlang]
  rcases hmode with h | h | h <;> subst h
  · rw [search_eq_fulltext]
    exact hrun _
  · rw [search_eq_whole_word]
    exact hrun _
  · rw [search_eq_first_chars]
    exact hrun _

/-- Witness for C8 at a concrete input: empty table created, fulltext search
yields no Results. -/
theorem C8_empty_search_witness :
    ("fulltext" = "fulltext" ∨ "fulltext" = "whole_word" ∨
      "fulltext" = "first_chars") ∧
    validLang "eng" = true ∧
    DB.getRows [("eng_cze", [])] "eng_cze" = some [] ∧
    search_in_db (⟨"eng_cze", true, false⟩ : Store) [("eng_cze", [])] "x" "eng" "fulltext"
      = .ok [] :=
  ⟨Or.inl rfl, rfl, rfl,
   C8_empty_search_amended _ _ _ _ _ (Or.inl rfl) rfl rfl⟩

/-- C10: `fill_db` parses every line of the raw file before performing the
single bulk insert, so when any line has fewer than five tab-separated fields
the call fails with the out-of-range `IndexError` and no row is inserted — the
returned state is an error, with no partial mutation, even when the malformed
line comes after well-formed ones. -/
theorem C10_fill_parse_atomic (s : Store) (db : DB) (f : Bytes)
    (content : String)
    (h : ∃ l ∈ pyLines content, (splitOnChar '\t' l).length < 5) :
    fill_db s db f (some content) = .error .indexError := by
  obtain ⟨l, hl, hshort⟩ := h
  exact fill_db_parse_error
    (parseAll_eq_none_of_mem hl (parseLine_eq_none_of_short hshort))

/-- Witness for C10 at a concrete input: a well-formed line followed by a
malformed one. -/
theorem C10_fill_parse_atomic_witness :
    (∃ l ∈ pyLines "a\tb\tc\td\te\nbad", (splitOnChar '\t' l).length < 5) ∧
    fill_db (⟨"eng_cze", false, false⟩ : Store) [("eng_cze", [])] Bytes.empty
        (some "a\tb\tc\td\te\nbad")
      = .error .indexError :=
  ⟨⟨['b', 'a', 'd'], by decide, by decide⟩,
   C10_fill_parse_atomic _ _ _ _ ⟨['b', 'a', 'd'], by decide, by decide⟩⟩

/-- C4 counterexample: with `memory_only = false`, a `prepare_db` call on a
state whose table already exists and whose backing file already holds the
serialized current state (the situation after a first `prepare_db`) leaves the
backing file's content unchanged, refuting the claim that every such call
changes the file's byte content observably. -/
theorem C4_durability_counterexample :
    ((⟨"eng_cze", false, false⟩ : Store).memory_only = false) ∧
    prepare_db (⟨"eng_cze", false, false⟩ : Store) [("eng_cze", [])]
        (Bytes.image [("eng_cze", [])])
      = ([("eng_cze", [])], Bytes.image [("eng_cze", [])]) :=
  ⟨rfl, rfl⟩

/-- C4 amended: with `memory_only = true`, neither `prepare_db` nor a
successful `fill_db` modifies the backing file (and `db_init`, `search_in_db`
and `close_db` only read, by construction of the model); with
`memory_only = false`, `prepare_db` and `fill_db` each overwrite the backing
file with the serialization of the updated in-memory state — so the file's
byte content changes exactly when that serialization differs from the current
file content (serialization being injective in the logical state). -/
theorem C4_durability_amended (s : Store) (db dbB : DB) (f : Bytes)
    (raw : String) :
    (s.memory_only = true →
      (prepare_db s db f).2 = f ∧
      ∀ r, fill_db s db f (some raw) = .ok r → r.2 = f) ∧
    (s.memory_only = false →
      (prepare_db s db f).2 = write_to_file s (prepare_db s db f).1 ∧
      ∀ r, fill_db s db f (some raw) = .ok r → r.2 = write_to_file s r.1) ∧
    (write_to_file s db = write_to_file s dbB ↔ db = dbB) := by
  refine ⟨?_, ?_, ?_⟩
  · intro hm
    constructor
    · simp [prepare_db, hm]
    · rintro ⟨dbr, fr⟩ h
      obtain ⟨data, hp, hi, hf⟩ := fill_db_ok_elim h
      rw [hm] at hf
      simpa using hf
  · intro hm
    constructor
    · simp [prepare_db, hm]
    · rintro ⟨dbr, fr⟩ h
      obtain ⟨data, hp, hi, hf⟩ := fill_db_ok_elim h
      rw [hm] at hf
      simpa using hf
  · cases hc : s.lzma_compressed <;> simp [write_to_file, hc]

/-- Witness for C4 at concrete inputs: a memory-only store leaves the file
alone, and serialization distinguishes distinct states. -/
theorem C4_durability_witness :
    ((⟨"eng_cze", true, false⟩ : Store).memory_only = true) ∧
    (prepare_db (⟨"eng_cze", true, false⟩ : Store) [] Bytes.empty).2
      = Bytes.empty ∧
    (write_to_file (⟨"eng_cze", true, false⟩ : Store) []
        = write_to_file (⟨"eng_cze", true, false⟩ : Store) [("eng_cze", [])]
      ↔ ([] : DB) = [("eng_cze", [])]) :=
  ⟨rfl,
   ((C4_durability_amended (⟨"eng_cze", true, false⟩ : Store) [] [("eng_cze", [])]
      Bytes.empty "x").1 rfl).1,
   (C4_durability_amended (⟨"eng_cze", true, false⟩ : Store) [] [("eng_cze", [])]
      Bytes.empty "x").2.2⟩

/-- C1: for any entries loaded via `fill_db` into a store with
`memory_only = false`, the backing file written by the fill (equivalently, by a
subsequent `write_to_file`) is such that a fresh store on the same path running
`db_init` reproduces exactly the in-memory database — the identical row set in
the same order — for both the compressed and the uncompressed backing-file
form (the store's compression flag is arbitrary here). -/
theorem C1_round_trip (s : Store) (db db2 : DB) (f f2 : Bytes)
    (content : String)
    (hm : s.memory_only = false)
    (h : fill_db s db f (some content) = .ok (db2, f2)) :
    db_init s f2 = .ok db2 ∧ db_init s (write_to_file s db2) = .ok db2 := by
  obtain ⟨data, hp, hi, hf⟩ := fill_db_ok_elim h
  rw [hm] at hf
  simp only [Bool.false_eq_true, if_false] at hf
  have hinit : db_init s (write_to_file s db2) = .ok db2 := by
    unfold db_init write_to_file
    cases hc : s.lzma_compressed <;>
      simp [hc, lzmaDecompress, Bytes.isNonEmpty, deserialize]
  exact ⟨hf ▸ hinit, hinit⟩

/-- Witness for C1 at a concrete input: one row filled into an uncompressed
store, read back by a fresh initialization. -/
theorem C1_round_trip_witness :
    ((⟨"eng_cze", false, false⟩ : Store).memory_only = false) ∧
    fill_db (⟨"eng_cze", false, false⟩ : Store) [("eng_cze", [])] Bytes.empty
        (some "a\tb\tc\td\te")
      = .ok ([("eng_cze", [⟨"a", "b", "c", "d", "e"⟩])],
             Bytes.image [("eng_cze", [⟨"a", "b", "c", "d", "e"⟩])]) ∧
    db_init (⟨"eng_cze", false, false⟩ : Store)
        (Bytes.image [("eng_cze", [⟨"a", "b", "c", "d", "e"⟩])])
      = .ok [("eng_cze", [⟨"a", "b", "c", "d", "e"⟩])] :=
  ⟨rfl, rfl,
   (C1_round_trip (⟨"eng_cze", false, false⟩ : Store) [("eng_cze", [])]
     [("eng_cze", [⟨"a", "b", "c", "d", "e"⟩])] Bytes.empty
     (Bytes.image [("eng_cze", [⟨"a", "b", "c", "d", "e"⟩])])
     "a\tb\tc\td\te" rfl rfl).1⟩

/-- C9: a store backed by an LZMA-compressed file and a store backed by the
equivalent uncompressed file (same table name, same durability flag, the
compressed file being the LZMA wrapping of the uncompressed one) exhibit
identical logical behavior: `db_init` yields the same result (value or error),
`prepare_db` yields the same in-memory state with mirrored files, `fill_db`
yields the same result with mirrored files, `search_in_db` is identical, and a
`write_to_file` followed by a fresh `db_init` reproduces the in-memory state on
both sides. -/
theorem C9_compression_transparency (sC sP : Store) (fP : Bytes)
    (ht : sC.table_name = sP.table_name) (hm : sC.memory_only = sP.memory_only)
    (hC : sC.lzma_compressed = true) (hP : sP.lzma_compressed = false) :
    db_init sC (Bytes.lzma fP) = db_init sP fP ∧
    (∀ db : DB,
      (prepare_db sC db (Bytes.lzma fP)).1 = (prepare_db sP db fP).1 ∧
      (prepare_db sC db (Bytes.lzma fP)).2
        = Bytes.lzma ((prepare_db sP db fP).2)) ∧
    (∀ db raw, fill_db sC db (Bytes.lzma fP) raw
        = (fill_db sP db fP raw).map (fun r => (r.1, Bytes.lzma r.2))) ∧
    (∀ db word lang mode,
      search_in_db sC db word lang mode = search_in_db sP db word lang mode) ∧
    (∀ db : DB, db_init sC (write_to_file sC db) = .ok db ∧
      db_init sP (write_to_file sP db) = .ok db) := by
  refine ⟨?_, ?_, ?_, ?_, ?_⟩
  · simp [db_init, hC, hP, lzmaDecompress]
  · intro db
    have hdb : db.createTableIfNotExists sC.table_name
        = db.createTableIfNotExists sP.table_name := by rw [ht]
    constructor
    · simp [prepare_db, hdb]
    · simp only [prepare_db, write_to_file, hC, hP, hdb, hm]
      cases hx : sP.memory_only <;> simp [hx]
  · intro db raw
    cases raw with
    | none => simp [fill_db, Except.map]
    | some content =>
      cases hp : parseData content with
      | none => simp [fill_db, hp, Except.map]
      | some data =>
        have hins : db.insertRows sC.table_name data
            = db.insertRows sP.table_name data := by rw [ht]
        cases hi : db.insertRows sP.table_name data with
        | none => simp [fill_db, hp, hins, hi, Except.map]
        | some db2 =>
          simp only [fill_db, hp, hins, hi, Except.map, write_to_file, hC, hP,
            hm]
          cases hx : sP.memory_only <;> simp [hx]
  · intro db word lang mode
    simp only [search_in_db, ht]
  · intro db
    constructor <;>
      simp [db_init, write_to_file, hC, hP, lzmaDecompress, Bytes.isNonEmpty,
        deserialize]

/-- Witness for C9 at a concrete input: the empty compressed fixture and the
empty uncompressed fixture initialize identically. -/
theorem C9_compression_transparency_witness :
    ((⟨"eng_cze", true, true⟩ : Store).table_name
      = (⟨"eng_cze", true, false⟩ : Store).table_name) ∧
    ((⟨"eng_cze", true, true⟩ : Store).memory_only
      = (⟨"eng_cze", true, false⟩ : Store).memory_only) ∧
    db_init (⟨"eng_cze", true, true⟩ : Store) (Bytes.lzma Bytes.empty)
      = db_init (⟨"eng_cze", true, false⟩ : Store) Bytes.empty :=
  ⟨rfl, rfl,
   (C9_compression_transparency (⟨"eng_cze", true, true⟩ : Store)
     (⟨"eng_cze", true, false⟩ : Store) Bytes.empty rfl rfl rfl rfl).1⟩

/-- C2: for every row of the table and every search word (scoped to nonempty
terms of ASCII word characters, for which the word-boundary pattern built from
the literal term is modelled), `search_in_db` in "whole_word" mode yields the
row's Result if and only if the selected column matches the word as a
delimited whole word, case-insensitively — where the registered `REGEXP`
predicate compiles the pattern case-insensitively and succeeds when a partial
regex search finds the word-boundary pattern anywhere in the candidate
string. -/
theorem C2_whole_word (s : Store) (db : DB) (rows : List Entry)
    (word lang : String) (res : List Result) (e : Entry)
    (hw : word ≠ "") (hwc : ∀ c ∈ word.data, isWordChar c = true)
    (hrows : db.getRows s.table_name = some rows) (he : e ∈ rows)
    (h : search_in_db s db word lang "whole_word" = .ok res) :
    Result.ofEntry e ∈ res ↔ WholeWordMatch word (langCol lang e) := by
  rw [search_eq_whole_word] at h
  have hres := runSelect_ok hrows h
  subst hres
  rw [mem_search_filter _ _ _ he]
  exact regexp_word_boundary_iff word (langCol lang e)

/-- Witness for C2 at a concrete input: searching "english" as a whole word
finds the row whose column is exactly "english". -/
theorem C2_whole_word_witness :
    ("english" ≠ "") ∧ (∀ c ∈ "english".data, isWordChar c = true) ∧
    DB.getRows [("eng_cze", [⟨"english", "czech", "n", "s", "a"⟩])] "eng_cze"
      = some [⟨"english", "czech", "n", "s", "a"⟩] ∧
    (⟨"english", "czech", "n", "s", "a"⟩ : Entry)
      ∈ [(⟨"english", "czech", "n", "s", "a"⟩ : Entry)] ∧
    search_in_db (⟨"eng_cze", true, false⟩ : Store)
        [("eng_cze", [⟨"english", "czech", "n", "s", "a"⟩])]
        "english" "eng" "whole_word"
      = .ok [Result.ofEntry ⟨"english", "czech", "n", "s", "a"⟩] ∧
    (Result.ofEntry (⟨"english", "czech", "n", "s", "a"⟩ : Entry)
        ∈ [Result.ofEntry (⟨"english", "czech", "n", "s", "a"⟩ : Entry)]
      ↔ WholeWordMatch "english"
          (langCol "eng" ⟨"english", "czech", "n", "s", "a"⟩)) := by
  refine ⟨by decide, by decide, rfl, by simp, rfl, ?_⟩
  exact C2_whole_word (⟨"eng_cze", true, false⟩ : Store)
    [("eng_cze", [⟨"english", "czech", "n", "s", "a"⟩])]
    [⟨"english", "czech", "n", "s", "a"⟩] "english" "eng"
    [Result.ofEntry ⟨"english", "czech", "n", "s", "a"⟩]
    ⟨"english", "czech", "n", "s", "a"⟩
    (by decide) (by decide) rfl (by simp) rfl

/-- C3 counterexample: SQLite `LIKE` is case-insensitive for ASCII by default,
so the fulltext search for "test" yields the Result of a row whose column
"TEST_ENG" does not contain "test" as a substring, refuting the
plain-containment (case-sensitive) if-and-only-if. -/
theorem C3_fulltext_counterexample :
    search_in_db (⟨"eng_cze", true, false⟩ : Store)
        [("eng_cze", [⟨"TEST_ENG", "x", "n", "s", "a"⟩])]
        "test" "eng" "fulltext"
      = .ok [Result.ofEntry ⟨"TEST_ENG", "x", "n", "s", "a"⟩] ∧
    ¬ ("test".data <:+:
        (langCol "eng" (⟨"TEST_ENG", "x", "n", "s", "a"⟩ : Entry)).data) :=
  ⟨rfl, by decide⟩

/-- C3 amended: for every row and every search word free of SQL `LIKE`
wildcards (`%`, `_`), `search_in_db` in "fulltext" mode yields the row's
Result if and only if the selected column contains the word as a substring
anywhere, case-insensitively under ASCII folding (the default behaviour of the
`LIKE` operator the mode delegates to). -/
theorem C3_fulltext_amended (s : Store) (db : DB) (rows : List Entry)
    (word lang : String) (res : List Result) (e : Entry)
    (hpct : '%' ∉ word.data) (hus : '_' ∉ word.data)
    (hrows : db.getRows s.table_name = some rows) (he : e ∈ rows)
    (h : search_in_db s db word lang "fulltext" = .ok res) :
    Result.ofEntry e ∈ res ↔
      word.data.map asciiLower <:+: (langCol lang e).data.map asciiLower := by
  rw [search_eq_fulltext] at h
  have hres := runSelect_ok hrows h
  subst hres
  rw [mem_search_filter _ _ _ he]
  have hdata : likeMatch ("%" ++ word ++ "%") (langCol lang e)
      = likeM ('%' :: (word.data ++ ['%'])) (langCol lang e).data := rfl
  rw [hdata]
  exact likeM_contains_iff word.data (langCol lang e).data hpct hus

/-- Witness for C3 at a concrete input: the fulltext search for "test" matches
"TEST_ENG" exactly because case-insensitive containment holds. -/
theorem C3_fulltext_witness :
    ('%' ∉ "test".data) ∧ ('_' ∉ "test".data) ∧
    DB.getRows [("eng_cze", [⟨"TEST_ENG", "x", "n", "s", "a"⟩])] "eng_cze"
      = some [⟨"TEST_ENG", "x", "n", "s", "a"⟩] ∧
    (⟨"TEST_ENG", "x", "n", "s", "a"⟩ : Entry)
      ∈ [(⟨"TEST_ENG", "x", "n", "s", "a"⟩ : Entry)] ∧
    search_in_db (⟨"eng_cze", true, false⟩ : Store)
        [("eng_cze", [⟨"TEST_ENG", "x", "n", "s", "a"⟩])]
        "test" "eng" "fulltext"
      = .ok [Result.ofEntry ⟨"TEST_ENG", "x", "n", "s", "a"⟩] ∧
    (Result.ofEntry (⟨"TEST_ENG", "x", "n", "s", "a"⟩ : Entry)
        ∈ [Result.ofEntry (⟨"TEST_ENG", "x", "n", "s", "a"⟩ : Entry)]
      ↔ "test".data.map asciiLower <:+:
          (langCol "eng" ⟨"TEST_ENG", "x", "n", "s", "a"⟩).data.map
            asciiLower) := by
  refine ⟨by decide, by decide, rfl, by simp, rfl, ?_⟩
  exact C3_fulltext_amended (⟨"eng_cze", true, false⟩ : Store)
    [("eng_cze", [⟨"TEST_ENG", "x", "n", "s", "a"⟩])]
    [⟨"TEST_ENG", "x", "n", "s", "a"⟩] "test" "eng"
    [Result.ofEntry ⟨"TEST_ENG", "x", "n", "s", "a"⟩]
    ⟨"TEST_ENG", "x", "n", "s", "a"⟩
    (by decide) (by decide) rfl (by simp) rfl
